import Mathlib

/-!
Verification development for the DRAWGAME server core
(src/server/routes.ts, src/server/storage.ts, shared schema).

The definitions below are shallow embeddings of the server's room/phase
orchestration logic: the chain assignment function, the phase transition
logic of the submit handlers and of progressPhase/handlePhaseTimeout, the
phase timer manager, and the join/start/close handlers.  Machine numbers in
the source are non-negative integers, embedded as Nat; JavaScript
Math.floor(x / 2) on a Nat is Nat division and % on non-negative operands
is Nat.mod.
-/

namespace DrawGame

/-- Game phases of a room, from gamePhaseSchema in the shared schema. -/
inductive Phase
  | lobby
  | writing
  | drawing
  | guessing
  | results
deriving DecidableEq, Repr

/-- Player status values, from playerStatusSchema in the shared schema. -/
inductive PlayerStatus
  | waiting
  | active
  | finished
  | disconnected
deriving DecidableEq, Repr

/-- Step types inside a game chain, from gameChainSchema in the shared schema. -/
inductive StepType
  | prompt
  | drawing
  | guess
deriving DecidableEq, Repr

/-- One step of a game chain: its type, the authoring player (by index) and
the round it was produced in (content and timestamp are irrelevant to the
claims and omitted). -/
structure Step where
  type : StepType
  playerId : Nat
  round : Nat
deriving DecidableEq, Repr

/-- Embedding of getChainIndexForPlayer from src/server/routes.ts:
writing phase returns the player's own index, otherwise
(playerIndex + Math.floor(round / 2)) % numPlayers. -/
def getChainIndexForPlayer (playerIndex round numPlayers : Nat) (phase : Phase) : Nat :=
  if phase = Phase.writing then
    playerIndex
  else
    (playerIndex + round / 2) % numPlayers

theorem gci_lt (i r N : Nat) (p : Phase) (hN : 1 ≤ N) (hi : i < N) :
    getChainIndexForPlayer i r N p < N := by
  unfold getChainIndexForPlayer
  by_cases hp : p = Phase.writing
  · simp [hp, hi]
  · simp only [hp, if_false]
    exact Nat.mod_lt _ (by omega)

theorem gci_inj (i j r N : Nat) (p : Phase) (hi : i < N) (hj : j < N)
    (h : getChainIndexForPlayer i r N p = getChainIndexForPlayer j r N p) : i = j := by
  unfold getChainIndexForPlayer at h
  by_cases hp : p = Phase.writing
  · simpa [hp] using h
  · simp only [hp, if_false] at h
    have hmod : i + r / 2 ≡ j + r / 2 [MOD N] := h
    have : i ≡ j [MOD N] := Nat.ModEq.add_right_cancel' _ hmod
    have h2 : i % N = j % N := this
    rwa [Nat.mod_eq_of_lt hi, Nat.mod_eq_of_lt hj] at h2

theorem gci_surj (k r N : Nat) (p : Phase) (hN : 1 ≤ N) (hk : k < N) :
    ∃ i, i < N ∧ getChainIndexForPlayer i r N p = k := by
  by_cases hp : p = Phase.writing
  · exact ⟨k, hk, by simp [getChainIndexForPlayer, hp]⟩
  · set c := r / 2 with hc
    set d := c % N with hd
    have hdN : d < N := Nat.mod_lt _ (by omega)
    refine ⟨(k + (N - d)) % N, Nat.mod_lt _ (by omega), ?_⟩
    unfold getChainIndexForPlayer
    simp only [hp, if_false]
    have hcd : c ≡ d [MOD N] := by
      show c % N = d % N
      rw [Nat.mod_eq_of_lt hdN]
    have h1 : ((k + (N - d)) % N + c) % N = (k + (N - d) + c) % N := by
      rw [Nat.mod_add_mod]
    have h2 : (k + (N - d) + c) % N = (k + (N - d) + d) % N :=
      Nat.ModEq.add_left _ hcd
    have h3 : k + (N - d) + d = k + N := by omega
    rw [h1, h2, h3, Nat.add_mod_right, Nat.mod_eq_of_lt hk]

/-- Uniqueness of the preimage of a chain index under the assignment map. -/
theorem gci_preimage_unique (r N : Nat) (p : Phase) (hN : 1 ≤ N) (j : Nat) (hj : j < N) :
    ∃ i0, i0 < N ∧ getChainIndexForPlayer i0 r N p = j ∧
      ∀ i, i < N → getChainIndexForPlayer i r N p = j → i = i0 := by
  obtain ⟨i0, hi0, hval⟩ := gci_surj j r N p hN hj
  exact ⟨i0, hi0, hval, fun i hi hval' => gci_inj i i0 r N p hi hi0 (by rw [hval', hval])⟩

/-- C1: the chain assignment function returns i in the writing phase and
(i + floor(round / 2)) mod N in the drawing and guessing phases. -/
theorem chain_index_formula (i r N : Nat) (p : Phase) (_hN : 1 ≤ N) :
    (p = Phase.writing → getChainIndexForPlayer i r N p = i) ∧
    ((p = Phase.drawing ∨ p = Phase.guessing) →
      getChainIndexForPlayer i r N p = (i + r / 2) % N) := by
  constructor
  · intro hp
    simp [getChainIndexForPlayer, hp]
  · intro hp
    have hne : p ≠ Phase.writing := by
      rcases hp with h | h <;> simp [h]
    simp [getChainIndexForPlayer, hne]

/-- Witness for C1: concrete evaluation in the drawing phase with N = 4, round 5. -/
theorem chain_index_formula_witness :
    1 ≤ 4 ∧ getChainIndexForPlayer 2 5 4 Phase.drawing = (2 + 5 / 2) % 4 :=
  ⟨by decide, (chain_index_formula 2 5 4 Phase.drawing (by decide)).2 (Or.inl rfl)⟩

/-- C4: for every round, phase and player count N ≥ 1 the map from player
index to assigned chain index is a permutation of 0..N-1: it stays inside
0..N-1, is injective there (no two players share a chain), and hits every
chain index. -/
theorem chain_assignment_permutation (r : Nat) (p : Phase) (N : Nat) (hN : 1 ≤ N) :
    (∀ i, i < N → getChainIndexForPlayer i r N p < N) ∧
    (∀ i j, i < N → j < N →
      getChainIndexForPlayer i r N p = getChainIndexForPlayer j r N p → i = j) ∧
    (∀ k, k < N → ∃ i, i < N ∧ getChainIndexForPlayer i r N p = k) :=
  ⟨fun i hi => gci_lt i r N p hN hi,
   fun i j hi hj h => gci_inj i j r N p hi hj h,
   fun k hk => gci_surj k r N p hN hk⟩

/-- Witness for C4: the assignment stays inside 0..3 for N = 4, round 5, drawing. -/
theorem chain_assignment_permutation_witness :
    1 ≤ 4 ∧ getChainIndexForPlayer 3 5 4 Phase.drawing < 4 :=
  ⟨by decide, (chain_assignment_permutation 5 Phase.drawing 4 (by decide)).1 3 (by decide)⟩

/-! Full-game chain simulation for the round-trip property.

The chain store is embedded as a map from chainIndex to the chain's step
list (storage.getGameChainsByRoom followed by find on chainIndex).  A phase
in which every player submits is embedded as a fold over the player indices
in which player i appends one step to the chain computed by
getChainIndexForPlayer, exactly as the submit_prompt / submit_drawing /
submit_guess handlers do; the subsequent all-players-finished phase
transition is transcribed from the inline transition blocks of those
handlers. -/

/-- Chain store of one room, keyed by chainIndex. -/
abbrev Chains := Nat → List Step

/-- Append a step to the chain with index k (updateGameChain with
steps := [...chain.steps, step]). -/
def appendStep (cs : Chains) (k : Nat) (s : Step) : Chains :=
  fun j => if j = k then cs j ++ [s] else cs j

/-- Step type authored in each submitting phase: prompts in writing,
drawings in drawing, guesses in guessing. -/
def phaseStepType (p : Phase) : StepType :=
  match p with
  | Phase.writing => StepType.prompt
  | Phase.drawing => StepType.drawing
  | _ => StepType.guess

/-- Every player submits in the current phase: each player i appends one
step (of the phase's content type, tagged with the current round) to the
chain resolved by getChainIndexForPlayer. -/
def submitAll (N r : Nat) (p : Phase) (cs : Chains) : Chains :=
  (List.range N).foldl
    (fun acc i =>
      appendStep acc (getChainIndexForPlayer i r N p)
        { type := phaseStepType p, playerId := i, round := r })
    cs

/-- Phase, round and chain store of a room mid-game. -/
structure GState where
  phase : Phase
  round : Nat
  chains : Chains

/-- One all-players-submitted phase completion for a room with N players and
totalRounds = T, transcribed from the inline transition logic of the
submit_prompt, submit_drawing and submit_guess handlers in routes.ts:
writing goes to drawing with round + 1; drawing goes to results when
floor(round / 2) has reached T and otherwise to guessing with round + 1;
guessing always returns to drawing with round + 1. -/
def phaseComplete (N T : Nat) (st : GState) : GState :=
  match st.phase with
  | Phase.writing =>
      { phase := Phase.drawing, round := st.round + 1,
        chains := submitAll N st.round Phase.writing st.chains }
  | Phase.drawing =>
      let cs := submitAll N st.round Phase.drawing st.chains
      if T ≤ st.round / 2 then
        { phase := Phase.results, round := st.round, chains := cs }
      else
        { phase := Phase.guessing, round := st.round + 1, chains := cs }
  | Phase.guessing =>
      { phase := Phase.drawing, round := st.round + 1,
        chains := submitAll N st.round Phase.guessing st.chains }
  | _ => st

/-- Iterate phase completions until the results phase (or until fuel runs out). -/
def runPhases (N T : Nat) : Nat → GState → GState
  | 0, st => st
  | fuel + 1, st =>
      if st.phase = Phase.results then st
      else runPhases N T fuel (phaseComplete N T st)

/-- State right after start_game: writing phase, round 1, all chains empty. -/
def initGState : GState :=
  { phase := Phase.writing, round := 1, chains := fun _ => [] }

/-- A full game in which every player submits in every phase: 2 * T phase
completions reach the results phase (writing, then T drawing phases
interleaved with T - 1 guessing phases). -/
def runGame (N T : Nat) : GState :=
  runPhases N T (2 * T) initGState

/-- Step type the game produces in round r: a prompt in round 1, drawings in
even rounds, guesses in odd rounds ≥ 3. -/
def roundStepType (r : Nat) : StepType :=
  if r = 1 then StepType.prompt
  else if r % 2 = 0 then StepType.drawing
  else StepType.guess

/-- The (type, round) sequence of a chain after rounds 1..n have completed:
(prompt, 1), (drawing, 2), (guess, 3), (drawing, 4), ... -/
def expectedKinds (n : Nat) : List (StepType × Nat) :=
  (List.range n).map (fun m => (roundStepType (m + 1), m + 1))

/-- Projection of a chain to its (type, round) sequence. -/
def chainKinds (c : List Step) : List (StepType × Nat) :=
  c.map (fun s => (s.type, s.round))

theorem foldl_appendStep (g : Nat → Nat) (mk : Nat → Step) :
    ∀ (L : List Nat) (cs : Chains) (j : Nat),
      (L.foldl (fun acc i => appendStep acc (g i) (mk i)) cs) j
        = cs j ++ (L.filter (fun i => g i == j)).map mk := by
  intro L
  induction L with
  | nil => intro cs j; simp
  | cons a L ih =>
      intro cs j
      simp only [List.foldl_cons, List.filter_cons]
      rw [ih]
      by_cases h : g a = j
      · simp [appendStep, h]
      · have h2 : j ≠ g a := fun hh => h hh.symm
        simp [appendStep, h, h2]

theorem filter_preimage_singleton (g : Nat → Nat) :
    ∀ (N : Nat) (j i0 : Nat), i0 < N → g i0 = j →
      (∀ i, i < N → g i = j → i = i0) →
      (List.range N).filter (fun i => g i == j) = [i0] := by
  intro N
  induction N with
  | zero => intro j i0 h; omega
  | succ n ih =>
      intro j i0 hi0 hval huniq
      rw [List.range_succ, List.filter_append]
      by_cases h : i0 = n
      · have hempty : (List.range n).filter (fun i => g i == j) = [] := by
          rw [List.filter_eq_nil_iff]
          intro a ha
          simp only [beq_iff_eq]
          intro hga
          have ha' : a < n := List.mem_range.mp ha
          have := huniq a (by omega) hga
          omega
        have hgn : g n = j := h ▸ hval
        simp [hempty, hgn, h]
      · have hi0n : i0 < n := by omega
        have hne : g n ≠ j := fun hgn => h (huniq n (by omega) hgn).symm
        rw [ih j i0 hi0n hval (fun i hi hgi => huniq i (by omega) hgi)]
        simp [hne]

/-- Effect of a full submitting phase on one chain: chain j gains exactly
one step, authored by the unique player assigned to it. -/
theorem submitAll_chain (N r : Nat) (p : Phase) (cs : Chains) (j : Nat)
    (hN : 1 ≤ N) (hj : j < N) :
    ∃ i0, i0 < N ∧
      submitAll N r p cs j
        = cs j ++ [{ type := phaseStepType p, playerId := i0, round := r }] := by
  obtain ⟨i0, hi0, hval, huniq⟩ := gci_preimage_unique r N p hN j hj
  refine ⟨i0, hi0, ?_⟩
  unfold submitAll
  rw [foldl_appendStep (fun i => getChainIndexForPlayer i r N p)
        (fun i => { type := phaseStepType p, playerId := i, round := r })]
  rw [filter_preimage_singleton (fun i => getChainIndexForPlayer i r N p) N j i0 hi0 hval huniq]
  simp

/-- Effect of a full submitting phase on the (type, round) projection. -/
theorem submitAll_kinds (N r : Nat) (p : Phase) (cs : Chains) (j : Nat)
    (hN : 1 ≤ N) (hj : j < N) :
    chainKinds (submitAll N r p cs j) = chainKinds (cs j) ++ [(phaseStepType p, r)] := by
  obtain ⟨i0, _, heq⟩ := submitAll_chain N r p cs j hN hj
  rw [heq]
  simp [chainKinds]

theorem expectedKinds_succ (n : Nat) :
    expectedKinds (n + 1) = expectedKinds n ++ [(roundStepType (n + 1), n + 1)] := by
  unfold expectedKinds
  rw [List.range_succ]
  simp

theorem runPhases_zero (N T : Nat) (st : GState) : runPhases N T 0 st = st := rfl

theorem runPhases_succ (N T fuel : Nat) (st : GState) :
    runPhases N T (fuel + 1) st =
      if st.phase = Phase.results then st
      else runPhases N T fuel (phaseComplete N T st) := rfl

theorem phaseComplete_writing (N T r : Nat) (cs : Chains) :
    phaseComplete N T { phase := Phase.writing, round := r, chains := cs } =
      { phase := Phase.drawing, round := r + 1,
        chains := submitAll N r Phase.writing cs } := rfl

theorem phaseComplete_drawing (N T r : Nat) (cs : Chains) :
    phaseComplete N T { phase := Phase.drawing, round := r, chains := cs } =
      if T ≤ r / 2 then
        { phase := Phase.results, round := r, chains := submitAll N r Phase.drawing cs }
      else
        { phase := Phase.guessing, round := r + 1,
          chains := submitAll N r Phase.drawing cs } := rfl

theorem phaseComplete_guessing (N T r : Nat) (cs : Chains) :
    phaseComplete N T { phase := Phase.guessing, round := r, chains := cs } =
      { phase := Phase.drawing, round := r + 1,
        chains := submitAll N r Phase.guessing cs } := rfl

theorem roundStepType_even (c : Nat) (_hc : 1 ≤ c) :
    roundStepType (2 * c) = StepType.drawing := by
  have h1 : 2 * c ≠ 1 := by omega
  have h2 : (2 * c) % 2 = 0 := by omega
  simp [roundStepType, h1, h2]

theorem roundStepType_odd (c : Nat) (_hc : 1 ≤ c) :
    roundStepType (2 * c + 1) = StepType.guess := by
  have h1 : 2 * c + 1 ≠ 1 := by omega
  have h2 : (2 * c + 1) % 2 = 1 := by omega
  simp [roundStepType, h1, h2]

/-- Running the game from the start of the drawing phase of cycle c (round
2c), with m more cycles after this one, reaches the results phase with every
chain's (type, round) sequence equal to the expected pattern of rounds
1..2T.  The final cycle's drawing phase moves straight to results, so no
guess step for round 2T is ever appended. -/
theorem runPhases_from_drawing (N T : Nat) (hN : 1 ≤ N) :
    ∀ (m c : Nat), 1 ≤ c → c + m = T →
      ∀ (cs : Chains),
        (∀ j, j < N → chainKinds (cs j) = expectedKinds (2 * c - 1)) →
        (runPhases N T (2 * m + 1)
            { phase := Phase.drawing, round := 2 * c, chains := cs }).phase = Phase.results ∧
        ∀ j, j < N →
          chainKinds ((runPhases N T (2 * m + 1)
              { phase := Phase.drawing, round := 2 * c, chains := cs }).chains j)
            = expectedKinds (2 * T) := by
  intro m
  induction m with
  | zero =>
      intro c hc hcT cs hcs
      have hceq : c = T := by omega
      have hT : T ≤ (2 * c) / 2 := by omega
      have hfuel : 2 * 0 + 1 = 0 + 1 := rfl
      rw [hfuel, runPhases_succ, if_neg (by simp), phaseComplete_drawing, if_pos hT,
        runPhases_zero]
      refine ⟨rfl, ?_⟩
      intro j hj
      show chainKinds (submitAll N (2 * c) Phase.drawing cs j) = expectedKinds (2 * T)
      rw [submitAll_kinds N (2 * c) Phase.drawing cs j hN hj, hcs j hj, ← hceq]
      have h1 : 2 * c - 1 + 1 = 2 * c := by omega
      have hexp := expectedKinds_succ (2 * c - 1)
      rw [h1] at hexp
      rw [hexp, roundStepType_even c hc]
      rfl
  | succ m ih =>
      intro c hc hcT cs hcs
      have hfuel : 2 * (m + 1) + 1 = 2 * m + 1 + 1 + 1 := by ring
      rw [hfuel, runPhases_succ, if_neg (by simp), phaseComplete_drawing,
        if_neg (by omega : ¬ T ≤ (2 * c) / 2), runPhases_succ, if_neg (by simp),
        phaseComplete_guessing]
      have harith : 2 * c + 1 + 1 = 2 * (c + 1) := by ring
      rw [harith]
      refine ih (c + 1) (by omega) (by omega) _ ?_
      intro j hj
      rw [submitAll_kinds N (2 * c + 1) Phase.guessing _ j hN hj,
        submitAll_kinds N (2 * c) Phase.drawing cs j hN hj, hcs j hj]
      have h1 : 2 * c - 1 + 1 = 2 * c := by omega
      have hexp1 := expectedKinds_succ (2 * c - 1)
      rw [h1] at hexp1
      have hexp2 := expectedKinds_succ (2 * c)
      have h2 : 2 * (c + 1) - 1 = 2 * c + 1 := by omega
      rw [h2, hexp2, hexp1, roundStepType_even c hc, roundStepType_odd c hc,
        List.append_assoc]
      simp [phaseStepType]

/-- Rounds along a chain are strictly increasing whenever the chain's
(type, round) projection is the expected pattern. -/
theorem pairwise_round_of_kinds (c : List Step) (n : Nat)
    (h : chainKinds c = expectedKinds n) :
    c.Pairwise (fun a b => a.round < b.round) := by
  have h2 : c.map (fun s => s.round) = (List.range n).map (fun m => m + 1) := by
    have h3 := congrArg (List.map Prod.snd) h
    simpa [chainKinds, expectedKinds, List.map_map, Function.comp] using h3
  have h4 : List.Pairwise (· < ·) ((List.range n).map (fun m => m + 1)) := by
    refine List.Pairwise.map _ ?_ (List.pairwise_lt_range n)
    intro a b hab
    omega
  rw [← h2] at h4
  exact List.pairwise_map.mp h4

/-- Counterexample to C3 as stated: with 4 players and totalRounds = 1, a
full game in which everyone submits everywhere leaves chain 0 with 2 steps
(its prompt and one drawing), not 1 + 2 * totalRounds = 3: the final cycle's
guessing phase never happens because the drawing phase moves straight to
results once floor(round / 2) reaches totalRounds. -/
theorem chain_length_counterexample :
    ((runGame 4 1).chains 0).length = 2 ∧
    ¬ ((runGame 4 1).chains 0).length = 1 + 2 * 1 := by
  refine ⟨?_, ?_⟩ <;> decide

/-- C3 (amended): after a full game in which every player submits in every
phase for totalRounds = T cycles, every chain's step sequence has length
exactly 2 * T (not 1 + 2 * T), its (type, round) sequence is exactly the
alternating pattern (prompt, 1), (drawing, 2), (guess, 3), ..., ending with
the drawing of round 2T (the final guess is never collected), and its steps
carry strictly increasing round numbers. -/
theorem game_chain_round_trip (N T : Nat) (hN : 1 ≤ N) (hT : 1 ≤ T) :
    (runGame N T).phase = Phase.results ∧
    ∀ j, j < N →
      chainKinds ((runGame N T).chains j) = expectedKinds (2 * T) ∧
      ((runGame N T).chains j).length = 2 * T ∧
      ((runGame N T).chains j).Pairwise (fun a b => a.round < b.round) := by
  have hrun : runGame N T
      = runPhases N T (2 * (T - 1) + 1) (phaseComplete N T initGState) := by
    unfold runGame
    have hfe : 2 * T = 2 * (T - 1) + 1 + 1 := by omega
    rw [hfe, runPhases_succ, if_neg (by simp [initGState])]
  have hw : phaseComplete N T initGState
      = { phase := Phase.drawing, round := 2,
          chains := submitAll N 1 Phase.writing (fun _ => []) } := rfl
  have hinit : ∀ j, j < N →
      chainKinds (submitAll N 1 Phase.writing (fun _ => []) j)
        = expectedKinds (2 * 1 - 1) := by
    intro j hj
    rw [submitAll_kinds N 1 Phase.writing _ j hN hj]
    decide
  have hmain := runPhases_from_drawing N T hN (T - 1) 1 (by omega) (by omega)
      (submitAll N 1 Phase.writing (fun _ => [])) hinit
  constructor
  · rw [hrun, hw]
    exact hmain.1
  · intro j hj
    rw [hrun, hw]
    have hk := hmain.2 j hj
    refine ⟨hk, ?_, pairwise_round_of_kinds _ (2 * T) hk⟩
    have hlen := congrArg List.length hk
    simpa [chainKinds, expectedKinds] using hlen

/-- Witness for the amended C3 at N = 4, T = 2: the run reaches results and
chain 0 has length 4. -/
theorem game_chain_round_trip_witness :
    1 ≤ 4 ∧ 1 ≤ 2 ∧ (runGame 4 2).phase = Phase.results ∧
    ((runGame 4 2).chains 0).length = 2 * 2 :=
  ⟨by decide, by decide, (game_chain_round_trip 4 2 (by decide) (by decide)).1,
   ((game_chain_round_trip 4 2 (by decide) (by decide)).2 0 (by decide)).2.1⟩

/-! Room-level phase transition and timeout machinery for one room.

RoomState keeps the fields of the room record that the transition code
reads or writes, with the player roster abstracted to its status list
(updatePlayer with a status is a positional update; the loops in the source
update every player, which for rosters with distinct ids is a map over the
status list).  The room's phase timer (the activeTimers entry) is embedded
as an Option holding the started duration: startPhaseTimer sets it
(replacing any previous value) and stopPhaseTimer clears it. -/

structure RoomState where
  currentPhase : Phase
  currentRound : Nat
  totalRounds : Nat
  statuses : List PlayerStatus
  drawingTime : Nat
  guessingTime : Nat
  timer : Option Nat
deriving DecidableEq, Repr

/-- Net effect on the room of the all-players-finished blocks inside
submit_prompt, submit_drawing and submit_guess in routes.ts: stop the
current timer, move writing to drawing (round + 1), drawing to results when
floor(currentRound / 2) has reached totalRounds and otherwise to guessing
(round + 1), guessing back to drawing (round + 1); reset every player's
status to waiting; start the next phase's timer (drawingTime for drawing,
guessingTime for guessing, none entering results). -/
def allFinishedAdvance (room : RoomState) : RoomState :=
  match room.currentPhase with
  | Phase.writing =>
      { room with
        currentPhase := Phase.drawing,
        currentRound := room.currentRound + 1,
        statuses := room.statuses.map (fun _ => PlayerStatus.waiting),
        timer := some room.drawingTime }
  | Phase.drawing =>
      if room.totalRounds ≤ room.currentRound / 2 then
        { room with
          currentPhase := Phase.results,
          statuses := room.statuses.map (fun _ => PlayerStatus.waiting),
          timer := none }
      else
        { room with
          currentPhase := Phase.guessing,
          currentRound := room.currentRound + 1,
          statuses := room.statuses.map (fun _ => PlayerStatus.waiting),
          timer := some room.guessingTime }
  | Phase.guessing =>
      { room with
        currentPhase := Phase.drawing,
        currentRound := room.currentRound + 1,
        statuses := room.statuses.map (fun _ => PlayerStatus.waiting),
        timer := some room.drawingTime }
  | _ => room

/-- Embedding of progressPhase from routes.ts: update phase and round
(writing always moves to round 2), reset all player statuses to waiting,
and when the new phase is neither results nor lobby start its timer
(drawingTime for drawing and writing, guessingTime otherwise). -/
def progressPhase (room : RoomState) : RoomState :=
  let r1 :=
    match room.currentPhase with
    | Phase.writing =>
        { room with currentPhase := Phase.drawing, currentRound := 2 }
    | Phase.drawing =>
        if room.totalRounds ≤ room.currentRound / 2 then
          { room with currentPhase := Phase.results }
        else
          { room with
            currentPhase := Phase.guessing,
            currentRound := room.currentRound + 1 }
    | Phase.guessing =>
        { room with
          currentPhase := Phase.drawing,
          currentRound := room.currentRound + 1 }
    | _ => room
  let r2 := { r1 with statuses := r1.statuses.map (fun _ => PlayerStatus.waiting) }
  if r2.currentPhase ≠ Phase.results ∧ r2.currentPhase ≠ Phase.lobby then
    { r2 with
      timer := some (if r2.currentPhase = Phase.drawing then r2.drawingTime
                     else if r2.currentPhase = Phase.writing then r2.drawingTime
                     else r2.guessingTime) }
  else r2

/-- Force every player still in waiting status to finished, as
handlePhaseTimeout does before progressing (no content is recorded for
them). -/
def forceFinish (room : RoomState) : RoomState :=
  { room with
    statuses := room.statuses.map
      (fun s => if s = PlayerStatus.waiting then PlayerStatus.finished else s) }

/-- Embedding of handlePhaseTimeout from routes.ts: auto-finish all waiting
players, then progressPhase. -/
def handlePhaseTimeout (room : RoomState) : RoomState :=
  progressPhase (forceFinish room)

/-- Timer expiry as performed by startPhaseTimer's tick callback when
timeLeft reaches 0: stopPhaseTimer, then handlePhaseTimeout. -/
def timerExpire (room : RoomState) : RoomState :=
  handlePhaseTimeout { room with timer := none }

/-- Secondary Drawing record (fields relevant to the claims). -/
structure DrawingRec where
  playerId : Nat
  round : Nat
deriving DecidableEq, Repr

/-- Secondary Guess record (fields relevant to the claims). -/
structure GuessRec where
  playerId : Nat
  round : Nat
deriving DecidableEq, Repr

/-- Room together with its chain store and its Drawing/Guess records. -/
structure ServerState where
  room : RoomState
  chains : Chains
  drawings : List DrawingRec
  guesses : List GuessRec

/-- Timer expiry on the full store: handlePhaseTimeout only updates player
statuses and the room's phase/round/timer; it appends no chain step and
creates no Drawing or Guess record (it never calls updateGameChain,
createDrawing or createGuess). -/
def timerExpireFull (s : ServerState) : ServerState :=
  { s with room := timerExpire s.room }

/-- C2: when every player is finished in the drawing phase, the room moves
to results if floor(currentRound / 2) ≥ totalRounds, with no new timer
started, and otherwise to guessing with the round incremented, all statuses
reset to waiting and the guessing timer started. -/
theorem drawing_completion_transition (room : RoomState)
    (h : room.currentPhase = Phase.drawing) :
    (room.totalRounds ≤ room.currentRound / 2 →
      allFinishedAdvance room =
        { room with
          currentPhase := Phase.results,
          statuses := room.statuses.map (fun _ => PlayerStatus.waiting),
          timer := none }) ∧
    (room.currentRound / 2 < room.totalRounds →
      allFinishedAdvance room =
        { room with
          currentPhase := Phase.guessing,
          currentRound := room.currentRound + 1,
          statuses := room.statuses.map (fun _ => PlayerStatus.waiting),
          timer := some room.guessingTime }) := by
  constructor
  · intro hcycle
    simp [allFinishedAdvance, h, hcycle]
  · intro hcycle
    simp [allFinishedAdvance, h, Nat.not_le.mpr hcycle]

/-- Sample room for the C2 witness: drawing phase of round 2 with totalRounds 1. -/
def lastDrawingRoom : RoomState where
  currentPhase := Phase.drawing
  currentRound := 2
  totalRounds := 1
  statuses := [PlayerStatus.finished, PlayerStatus.finished]
  drawingTime := 180
  guessingTime := 60
  timer := some 180

/-- Witness for C2, at the spec's scenario: totalRounds = 1, completing the
drawing phase of round 2 goes straight to results with no timer, never to
guessing. -/
theorem drawing_completion_transition_witness :
    lastDrawingRoom.currentPhase = Phase.drawing ∧
    lastDrawingRoom.totalRounds ≤ lastDrawingRoom.currentRound / 2 ∧
    (allFinishedAdvance lastDrawingRoom).currentPhase = Phase.results ∧
    (allFinishedAdvance lastDrawingRoom).currentPhase ≠ Phase.guessing ∧
    (allFinishedAdvance lastDrawingRoom).timer = none :=
  ⟨rfl, by decide,
   by rw [(drawing_completion_transition lastDrawingRoom rfl).1 (by decide)],
   by rw [(drawing_completion_transition lastDrawingRoom rfl).1 (by decide)]; decide,
   by rw [(drawing_completion_transition lastDrawingRoom rfl).1 (by decide)]⟩

/-- C6: when a phase timer reaches zero the timer is stopped, every waiting
player is forced to finished with no chain step appended and no Drawing or
Guess record created, and the phase advancement performed is the same as
the all-players-finished advancement of the submit handlers (for the phases
in which a timer runs; the writing phase always runs at round 1). -/
theorem timeout_advances_like_all_finished (s : ServerState)
    (hp : s.room.currentPhase = Phase.writing ∨ s.room.currentPhase = Phase.drawing ∨
      s.room.currentPhase = Phase.guessing)
    (hw : s.room.currentPhase = Phase.writing → s.room.currentRound = 1) :
    (timerExpireFull s).chains = s.chains ∧
    (timerExpireFull s).drawings = s.drawings ∧
    (timerExpireFull s).guesses = s.guesses ∧
    (timerExpireFull s).room =
      allFinishedAdvance (forceFinish { s.room with timer := none }) := by
  refine ⟨rfl, rfl, rfl, ?_⟩
  show timerExpire s.room = allFinishedAdvance (forceFinish { s.room with timer := none })
  rcases hp with h | h | h
  · have hr := hw h
    simp [timerExpire, handlePhaseTimeout, progressPhase, forceFinish,
      allFinishedAdvance, h, hr]
  · by_cases hcycle : s.room.totalRounds ≤ s.room.currentRound / 2 <;>
      simp [timerExpire, handlePhaseTimeout, progressPhase, forceFinish,
        allFinishedAdvance, h, hcycle]
  · simp [timerExpire, handlePhaseTimeout, progressPhase, forceFinish,
      allFinishedAdvance, h]

/-- Sample room for the C6 witness: mid-game drawing phase with one still
waiting (for example disconnected but retained) player. -/
def midDrawingRoom : RoomState where
  currentPhase := Phase.drawing
  currentRound := 2
  totalRounds := 3
  statuses := [PlayerStatus.waiting, PlayerStatus.finished]
  drawingTime := 180
  guessingTime := 60
  timer := some 180

/-- Sample server state for the C6 witness. -/
def midDrawingState : ServerState where
  room := midDrawingRoom
  chains := fun _ => []
  drawings := []
  guesses := []

/-- Witness for C6: timer expiry in the sample drawing-phase room leaves
chains and records untouched and advances like the submit handlers. -/
theorem timeout_advances_like_all_finished_witness :
    midDrawingState.room.currentPhase = Phase.drawing ∧
    (timerExpireFull midDrawingState).chains = midDrawingState.chains ∧
    (timerExpireFull midDrawingState).room =
      allFinishedAdvance (forceFinish { midDrawingState.room with timer := none }) :=
  ⟨rfl,
   (timeout_advances_like_all_finished midDrawingState
      (Or.inr (Or.inl rfl)) (fun h => by simp [midDrawingState, midDrawingRoom] at h)).1,
   (timeout_advances_like_all_finished midDrawingState
      (Or.inr (Or.inl rfl)) (fun h => by simp [midDrawingState, midDrawingRoom] at h)).2.2.2⟩

/-! Phase timer manager.

The manager's state embeds the activeTimers map (room id to the id of the
interval registered for it) together with the set of interval handles that
have been created by setInterval and not yet cleared by clearInterval
(`live`), the room each interval broadcasts to and the duration it was
started with.  Interval handles are allocated fresh (nextId).  An interval
can deliver a tick — and hence a time_update broadcast — only while its
handle is live; clearInterval removes the handle for good. -/

structure TimerSys where
  nextId : Nat
  activeMap : Nat → Option Nat
  live : List Nat
  roomOf : Nat → Nat
  durOf : Nat → Nat

/-- Embedding of stopPhaseTimer: look up the room's timer; when present,
clearInterval its handle and delete the map entry. -/
def stopTimer (s : TimerSys) (room : Nat) : TimerSys :=
  match s.activeMap room with
  | none => s
  | some t =>
      { s with
        live := s.live.filter (fun x => x ≠ t),
        activeMap := fun r => if r = room then none else s.activeMap r }

/-- Embedding of startPhaseTimer: stop any existing timer for the room,
then register a fresh interval for it and record it in the map. -/
def startTimer (s : TimerSys) (room dur : Nat) : TimerSys :=
  let s1 := stopTimer s room
  { nextId := s1.nextId + 1,
    activeMap := fun r => if r = room then some s1.nextId else s1.activeMap r,
    live := s1.live ++ [s1.nextId],
    roomOf := fun t => if t = s1.nextId then room else s1.roomOf t,
    durOf := fun t => if t = s1.nextId then dur else s1.durOf t }

/-- A timer operation issued by the orchestrator. -/
inductive TimerOp
  | start (room dur : Nat)
  | stop (room : Nat)

def applyTimerOp (s : TimerSys) : TimerOp → TimerSys
  | TimerOp.start room dur => startTimer s room dur
  | TimerOp.stop room => stopTimer s room

def runTimerOps (s : TimerSys) (ops : List TimerOp) : TimerSys :=
  ops.foldl applyTimerOp s

/-- An interval handle can still fire (deliver a tick and its time_update
broadcast) iff it has not been cleared. -/
def canFire (s : TimerSys) (t : Nat) : Prop := t ∈ s.live

/-- Well-formedness of the manager state: map entries point at live,
already-allocated handles of the right room, and every live handle is the
one its room's map entry holds. -/
def TimerInv (s : TimerSys) : Prop :=
  (∀ room t, s.activeMap room = some t → s.roomOf t = room ∧ t ∈ s.live ∧ t < s.nextId) ∧
  (∀ t, t ∈ s.live → s.activeMap (s.roomOf t) = some t)

theorem stopTimer_inv (s : TimerSys) (room : Nat) (h : TimerInv s) :
    TimerInv (stopTimer s room) := by
  obtain ⟨h1, h2⟩ := h
  unfold stopTimer
  cases hm : s.activeMap room with
  | none => exact ⟨h1, h2⟩
  | some t0 =>
      constructor
      · intro r t ht
        simp only at ht
        by_cases hr : r = room
        · simp [hr] at ht
        · simp only [hr, if_false] at ht
          obtain ⟨ha, hb, hc⟩ := h1 r t ht
          refine ⟨ha, ?_, hc⟩
          simp only [List.mem_filter, decide_eq_true_eq]
          refine ⟨hb, ?_⟩
          intro hteq
          subst hteq
          obtain ⟨ha0, _, _⟩ := h1 room t hm
          exact hr (ha.symm.trans ha0)
      · intro t ht
        simp only [List.mem_filter, decide_eq_true_eq] at ht
        obtain ⟨htl, htne⟩ := ht
        have := h2 t htl
        have hrne : s.roomOf t ≠ room := by
          intro hr
          rw [hr, hm] at this
          exact htne (Option.some.inj this).symm
        simp only [hrne, if_false]
        exact this

theorem stopTimer_nextId (s : TimerSys) (room : Nat) :
    (stopTimer s room).nextId = s.nextId := by
  unfold stopTimer
  cases s.activeMap room <;> rfl

theorem stopTimer_live_sub (s : TimerSys) (room t : Nat)
    (h : t ∈ (stopTimer s room).live) : t ∈ s.live := by
  unfold stopTimer at h
  cases hm : s.activeMap room with
  | none => simpa [hm] using h
  | some t0 =>
      simp only [hm] at h
      exact (List.mem_filter.mp h).1

theorem stopTimer_none (s : TimerSys) (room : Nat) (_h : TimerInv s) :
    (stopTimer s room).activeMap room = none := by
  unfold stopTimer
  cases hm : s.activeMap room with
  | none => exact hm
  | some t0 => simp

theorem register_inv (s1 : TimerSys) (room dur : Nat) (h : TimerInv s1)
    (hnone : s1.activeMap room = none) :
    TimerInv
      { nextId := s1.nextId + 1,
        activeMap := fun r => if r = room then some s1.nextId else s1.activeMap r,
        live := s1.live ++ [s1.nextId],
        roomOf := fun t => if t = s1.nextId then room else s1.roomOf t,
        durOf := fun t => if t = s1.nextId then dur else s1.durOf t } := by
  obtain ⟨h1, h2⟩ := h
  constructor
  · intro r t ht
    simp only at ht ⊢
    by_cases hr : r = room
    · rw [if_pos hr] at ht
      have hteq : t = s1.nextId := (Option.some.inj ht).symm
      subst hteq
      refine ⟨by simp [hr], by simp, by omega⟩
    · rw [if_neg hr] at ht
      obtain ⟨ha, hb, hc⟩ := h1 r t ht
      have htne : t ≠ s1.nextId := by omega
      refine ⟨by simp [htne, ha], ?_, by omega⟩
      exact List.mem_append.mpr (Or.inl hb)
  · intro t ht
    simp only at ht ⊢
    rcases List.mem_append.mp ht with htl | htn
    · have hmap := h2 t htl
      have hlt : t < s1.nextId := (h1 _ t hmap).2.2
      have htne : t ≠ s1.nextId := by omega
      rw [if_neg htne]
      have hrne : s1.roomOf t ≠ room := by
        intro hr
        rw [hr, hnone] at hmap
        exact Option.noConfusion hmap
      rw [if_neg hrne]
      exact hmap
    · have hteq : t = s1.nextId := by simpa using htn
      subst hteq
      simp

theorem startTimer_inv (s : TimerSys) (room dur : Nat) (h : TimerInv s) :
    TimerInv (startTimer s room dur) :=
  register_inv (stopTimer s room) room dur (stopTimer_inv s room h)
    (stopTimer_none s room h)

theorem applyTimerOp_inv (s : TimerSys) (op : TimerOp) (h : TimerInv s) :
    TimerInv (applyTimerOp s op) := by
  cases op with
  | start room dur => exact startTimer_inv s room dur h
  | stop room => exact stopTimer_inv s room h

theorem runTimerOps_inv (ops : List TimerOp) :
    ∀ (s : TimerSys), TimerInv s → TimerInv (runTimerOps s ops) := by
  induction ops with
  | nil => intro s h; exact h
  | cons op ops ih =>
      intro s h
      exact ih (applyTimerOp s op) (applyTimerOp_inv s op h)

theorem applyTimerOp_dead (s : TimerSys) (op : TimerOp) (t : Nat)
    (hlt : t < s.nextId) (hdead : t ∉ s.live) :
    t < (applyTimerOp s op).nextId ∧ t ∉ (applyTimerOp s op).live := by
  cases op with
  | start room dur =>
      have hn := stopTimer_nextId s room
      constructor
      · simp only [applyTimerOp, startTimer]
        omega
      · simp only [applyTimerOp, startTimer]
        intro hmem
        rcases List.mem_append.mp hmem with htl | htn
        · exact hdead (stopTimer_live_sub s room t htl)
        · have : t = (stopTimer s room).nextId := by simpa using htn
          omega
  | stop room =>
      refine ⟨by rw [applyTimerOp, stopTimer_nextId]; exact hlt, ?_⟩
      intro hmem
      exact hdead (stopTimer_live_sub s room t hmem)

theorem runTimerOps_dead (ops : List TimerOp) :
    ∀ (s : TimerSys) (t : Nat), t < s.nextId → t ∉ s.live →
      t ∉ (runTimerOps s ops).live := by
  induction ops with
  | nil => intro s t _ hdead; exact hdead
  | cons op ops ih =>
      intro s t hlt hdead
      obtain ⟨hlt', hdead'⟩ := applyTimerOp_dead s op t hlt hdead
      exact ih (applyTimerOp s op) t hlt' hdead'

/-- C7: from any well-formed manager state and after any sequence of
start/stop operations, each room has at most one live interval (a start
replaces the previous timer), and an interval handle that is dead — cleared
explicitly or by replacement — never fires again, so it produces no further
tick or time_update broadcast. -/
theorem timer_exclusive_and_stopped_dead (s0 : TimerSys) (h : TimerInv s0)
    (ops : List TimerOp) :
    TimerInv (runTimerOps s0 ops) ∧
    (∀ t1 t2, canFire (runTimerOps s0 ops) t1 → canFire (runTimerOps s0 ops) t2 →
      (runTimerOps s0 ops).roomOf t1 = (runTimerOps s0 ops).roomOf t2 → t1 = t2) ∧
    (∀ t, t < s0.nextId → ¬ canFire s0 t → ¬ canFire (runTimerOps s0 ops) t) := by
  have hinv := runTimerOps_inv ops s0 h
  refine ⟨hinv, ?_, ?_⟩
  · intro t1 t2 h1 h2 hroom
    obtain ⟨ha, hb⟩ := hinv
    have e1 := hb t1 h1
    have e2 := hb t2 h2
    rw [hroom] at e1
    rw [e2] at e1
    exact (Option.some.inj e1).symm
  · intro t hlt hdead
    exact runTimerOps_dead ops s0 t hlt hdead

/-- Initial manager state for the C7 witness: handle 0 has already been
cleared (nextId is past it) and nothing is live. -/
def timerSys0 : TimerSys where
  nextId := 1
  activeMap := fun _ => none
  live := []
  roomOf := fun _ => 0
  durOf := fun _ => 0

theorem timerSys0_inv : TimerInv timerSys0 := by
  constructor
  · intro room t ht
    simp [timerSys0] at ht
  · intro t ht
    simp [timerSys0] at ht

/-- Witness for C7: after starting two timers for room 1 (the second
replacing the first) and stopping, the dead handle 0 can never fire. -/
theorem timer_exclusive_and_stopped_dead_witness :
    TimerInv timerSys0 ∧ 0 < timerSys0.nextId ∧ ¬ canFire timerSys0 0 ∧
    ¬ canFire (runTimerOps timerSys0
        [TimerOp.start 1 30, TimerOp.start 1 45, TimerOp.stop 1]) 0 :=
  ⟨timerSys0_inv, by decide, by simp [canFire, timerSys0],
   (timer_exclusive_and_stopped_dead timerSys0 timerSys0_inv
      [TimerOp.start 1 30, TimerOp.start 1 45, TimerOp.stop 1]).2.2 0
      (by decide) (by simp [canFire, timerSys0])⟩

/-! Roster-level model: join_room, start_game and the socket close handler.

Players carry the schema fields the handlers read (avatar and socketId are
irrelevant to the claims); ids are abstract (randomUUID in the source, here
passed in as fresh naturals).  A World is one room together with its chain
list (createGameChain appends to the store, so chains created later follow
earlier ones) and its phase timer entry. -/

structure Player where
  id : Nat
  name : String
  score : Nat
  status : PlayerStatus
  isHost : Bool
deriving DecidableEq, Repr

structure GameChain where
  chainIndex : Nat
  steps : List Step
deriving DecidableEq, Repr

structure Room where
  hostId : Nat
  players : List Player
  maxPlayers : Nat
  currentPhase : Phase
  currentRound : Nat
  totalRounds : Nat
  drawingTime : Nat
  guessingTime : Nat
deriving DecidableEq, Repr

structure World where
  room : Room
  chains : List GameChain
  timer : Option Nat
deriving DecidableEq, Repr

inductive StartErr
  | notHost
  | tooFewPlayers
deriving DecidableEq, Repr

/-- Embedding of the start_game case in routes.ts, for a connection already
bound to the room with player id requesterId (the earlier connection guard
rejects unbound connections).  getPlayer resolves the requester;
`!player?.isHost` rejects a missing or non-host player; fewer than 4
players is rejected; otherwise the room is set to the writing phase with
round 1, one empty chain per player is created with indices 0..N-1, and the
writing timer starts with drawingTime.  The handler never reads
currentPhase. -/
def startGame (w : World) (requesterId : Nat) : World × Option StartErr :=
  match w.room.players.find? (fun q => q.id == requesterId) with
  | none => (w, some StartErr.notHost)
  | some player =>
      if player.isHost = false then (w, some StartErr.notHost)
      else if w.room.players.length < 4 then (w, some StartErr.tooFewPlayers)
      else
        ({ room := { w.room with currentPhase := Phase.writing, currentRound := 1 },
           chains := w.chains ++ (List.range w.room.players.length).map
             (fun i => { chainIndex := i, steps := [] }),
           timer := some w.room.drawingTime },
         none)

inductive JoinErr
  | roomFull
  | nameTaken
deriving DecidableEq, Repr

/-- Embedding of the join_room case in routes.ts: reject when the room is
full or the name is already taken (case-sensitive string equality), else
append a new player whose isHost flag is set iff the roster was empty; when
the roster was empty the room's hostId is also set to the new player's id. -/
def joinRoom (room : Room) (playerName : String) (freshId : Nat) :
    Room × Option JoinErr :=
  if room.maxPlayers ≤ room.players.length then
    (room, some JoinErr.roomFull)
  else if room.players.any (fun p => p.name == playerName) then
    (room, some JoinErr.nameTaken)
  else
    let player : Player :=
      { id := freshId, name := playerName, score := 0,
        status := PlayerStatus.waiting, isHost := room.players.length == 0 }
    let room1 := { room with players := room.players ++ [player] }
    if room.players.length = 0 then
      ({ room1 with hostId := freshId }, none)
    else
      (room1, none)

/-- Embedding of the ws close handler in routes.ts: the connection registry
entry is always removed; when the closing connection is bound to a player,
the player is removed from the roster only if the room is in the lobby
phase (stopping the timer if the roster empties); during an active game the
roster — including the player's status — is left untouched. -/
def handleClose (w : World) (conns : List (Nat × Nat)) (cid : Nat) :
    World × List (Nat × Nat) :=
  let conns1 := conns.filter (fun c => c.1 != cid)
  match conns.find? (fun c => c.1 == cid) with
  | none => (w, conns1)
  | some c =>
      if w.room.currentPhase = Phase.lobby then
        let room1 :=
          { w.room with players := w.room.players.filter (fun p => p.id != c.2) }
        if room1.players.length = 0 then
          ({ w with room := room1, timer := none }, conns1)
        else
          ({ w with room := room1 }, conns1)
      else
        (w, conns1)

/-- C5: a start_game request from the host of a room with at least 4
players succeeds — phase writing, round 1, one empty chain per player with
indices 0..N-1 appended to the store, writing timer started with
drawingTime — while a request from a non-host (or unresolvable player) or
for a room with fewer than 4 players is answered with an error and changes
nothing. -/
theorem start_game_guards (w : World) (pid : Nat) :
    ((∃ p, w.room.players.find? (fun q => q.id == pid) = some p ∧ p.isHost = true) →
      4 ≤ w.room.players.length →
      (startGame w pid).2 = none ∧
      (startGame w pid).1.room.currentPhase = Phase.writing ∧
      (startGame w pid).1.room.currentRound = 1 ∧
      (startGame w pid).1.room.players = w.room.players ∧
      (startGame w pid).1.chains
        = w.chains ++ (List.range w.room.players.length).map
            (fun i => { chainIndex := i, steps := [] }) ∧
      (startGame w pid).1.timer = some w.room.drawingTime) ∧
    ((∀ p, w.room.players.find? (fun q => q.id == pid) = some p → p.isHost = false) →
      (startGame w pid).2 ≠ none ∧ (startGame w pid).1 = w) ∧
    (w.room.players.length < 4 →
      (startGame w pid).2 ≠ none ∧ (startGame w pid).1 = w) := by
  refine ⟨?_, ?_, ?_⟩
  · rintro ⟨p, hfind, hhost⟩ hlen
    simp only [startGame, hfind]
    rw [if_neg (by simp [hhost]), if_neg (by omega)]
    exact ⟨rfl, rfl, rfl, rfl, rfl, rfl⟩
  · intro hnothost
    cases hf : w.room.players.find? (fun q => q.id == pid) with
    | none => simp [startGame, hf]
    | some p =>
        have hh := hnothost p hf
        simp [startGame, hf, hh]
  · intro hlen
    cases hf : w.room.players.find? (fun q => q.id == pid) with
    | none => simp [startGame, hf]
    | some p =>
        by_cases hh : p.isHost = false
        · simp [startGame, hf, hh]
        · simp [startGame, hf, hh, hlen]

/-- C10: the start_game handler never inspects currentPhase — any host
request with at least 4 players succeeds even mid-game, resetting the round
to 1, switching the phase back to writing and appending players.length
fresh chains alongside the existing ones. -/
theorem start_game_ignores_phase (w : World) (pid : Nat) (p : Player)
    (hfind : w.room.players.find? (fun q => q.id == pid) = some p)
    (hhost : p.isHost = true)
    (hlen : 4 ≤ w.room.players.length) :
    (startGame w pid).2 = none ∧
    (startGame w pid).1.room.currentPhase = Phase.writing ∧
    (startGame w pid).1.room.currentRound = 1 ∧
    (startGame w pid).1.chains.length
      = w.chains.length + w.room.players.length := by
  simp only [startGame, hfind]
  rw [if_neg (by simp [hhost]), if_neg (by omega)]
  refine ⟨rfl, rfl, rfl, ?_⟩
  simp

theorem joinRoom_preserves (room : Room) (n : String) (fid : Nat)
    (h : room.players.length ≤ room.maxPlayers) :
    (joinRoom room n fid).1.players.length ≤ room.maxPlayers ∧
    (joinRoom room n fid).1.maxPlayers = room.maxPlayers := by
  by_cases h1 : room.maxPlayers ≤ room.players.length
  · simp [joinRoom, h1]
    exact h
  · by_cases h2 : room.players.any (fun p => p.name == n) = true
    · simp [joinRoom, h1, h2]
      exact h
    · by_cases h3 : room.players.length = 0
      · have h0 : ¬ room.maxPlayers = 0 := by omega
        simp [joinRoom, h1, h2, h3, h0]
        omega
      · simp [joinRoom, h1, h2, h3]
        omega

theorem join_fold_invariant (js : List (String × Nat)) :
    ∀ room : Room, room.players.length ≤ room.maxPlayers →
      (js.foldl (fun r j => (joinRoom r j.1 j.2).1) room).players.length
        ≤ (js.foldl (fun r j => (joinRoom r j.1 j.2).1) room).maxPlayers := by
  induction js with
  | nil => intro room h; exact h
  | cons j js ih =>
      intro room h
      obtain ⟨hl, hm⟩ := joinRoom_preserves room j.1 j.2 h
      exact ih _ (by rw [hm]; exact hl)

/-- C8: a join is rejected with no mutation when the room is full or the
name exactly matches an existing player's name; after any sequence of
joins the roster never exceeds maxPlayers; a successful join into an empty
room makes the joiner the host and records them as hostId. -/
theorem join_room_spec :
    (∀ (room : Room) (n : String) (fid : Nat),
      room.maxPlayers ≤ room.players.length →
      (joinRoom room n fid).2 ≠ none ∧ (joinRoom room n fid).1 = room) ∧
    (∀ (room : Room) (n : String) (fid : Nat),
      (∃ p, p ∈ room.players ∧ p.name = n) →
      (joinRoom room n fid).2 ≠ none ∧ (joinRoom room n fid).1 = room) ∧
    (∀ (js : List (String × Nat)) (room : Room),
      room.players.length ≤ room.maxPlayers →
      (js.foldl (fun r j => (joinRoom r j.1 j.2).1) room).players.length
        ≤ (js.foldl (fun r j => (joinRoom r j.1 j.2).1) room).maxPlayers) ∧
    (∀ (room : Room) (n : String) (fid : Nat),
      room.players = [] → 1 ≤ room.maxPlayers →
      (joinRoom room n fid).2 = none ∧
      (joinRoom room n fid).1.hostId = fid ∧
      (joinRoom room n fid).1.players
        = [{ id := fid, name := n, score := 0,
             status := PlayerStatus.waiting, isHost := true }]) := by
  refine ⟨?_, ?_, join_fold_invariant, ?_⟩
  · intro room n fid h
    simp [joinRoom, h]
  · intro room n fid ⟨p, hp, hname⟩
    by_cases h1 : room.maxPlayers ≤ room.players.length
    · simp [joinRoom, h1]
    · have hany : room.players.any (fun q => q.name == n) = true :=
        List.any_eq_true.mpr ⟨p, hp, by simp [hname]⟩
      simp [joinRoom, h1, hany]
  · intro room n fid hempty hmax
    have h1 : ¬ (room.maxPlayers ≤ room.players.length) := by
      rw [hempty]
      simp
      omega
    have h0 : ¬ room.maxPlayers = 0 := by omega
    simp [joinRoom, h1, hempty, h0]

/-- Empty lobby room for the C8 witness. -/
def emptyRoom : Room where
  hostId := 0
  players := []
  maxPlayers := 4
  currentPhase := Phase.lobby
  currentRound := 0
  totalRounds := 6
  drawingTime := 180
  guessingTime := 60

/-- Witness for C8: joining the empty room succeeds, makes the joiner host
and sets hostId; a room already at maxPlayers rejects with no change. -/
theorem join_room_spec_witness :
    emptyRoom.players = [] ∧ 1 ≤ emptyRoom.maxPlayers ∧
    (joinRoom emptyRoom "ann" 1).2 = none ∧
    (joinRoom emptyRoom "ann" 1).1.hostId = 1 :=
  ⟨rfl, by decide, (join_room_spec.2.2.2 emptyRoom "ann" 1 rfl (by decide)).1,
   (join_room_spec.2.2.2 emptyRoom "ann" 1 rfl (by decide)).2.1⟩

/-- C9 (amended): when a connection bound to player pid closes, the
connection registry entry is removed in every case; in the lobby phase the
player is removed from the roster and the timer is stopped if the roster
becomes empty (and kept otherwise); in any non-lobby phase the whole world
— roster order, player statuses (which are NOT marked disconnected) and
timer — is left unchanged. -/
theorem close_handler_spec (w : World) (conns : List (Nat × Nat)) (cid pid : Nat)
    (hfind : conns.find? (fun c => c.1 == cid) = some (cid, pid)) :
    ((handleClose w conns cid).2 = conns.filter (fun c => c.1 != cid)) ∧
    (w.room.currentPhase = Phase.lobby →
      (handleClose w conns cid).1.room.players
        = w.room.players.filter (fun p => p.id != pid) ∧
      ((w.room.players.filter (fun p => p.id != pid)).length = 0 →
        (handleClose w conns cid).1.timer = none) ∧
      ((w.room.players.filter (fun p => p.id != pid)).length ≠ 0 →
        (handleClose w conns cid).1.timer = w.timer)) ∧
    (w.room.currentPhase ≠ Phase.lobby →
      (handleClose w conns cid).1 = w) := by
  refine ⟨?_, ?_, ?_⟩
  · simp only [handleClose, hfind]
    by_cases hp : w.room.currentPhase = Phase.lobby
    · rw [if_pos hp]
      by_cases hz : (w.room.players.filter (fun p => p.id != pid)).length = 0
      · simp [hz]
      · simp [hz]
    · rw [if_neg hp]
  · intro hp
    simp only [handleClose, hfind]
    rw [if_pos hp]
    by_cases hz : (w.room.players.filter (fun p => p.id != pid)).length = 0
    · simp [hz]
    · simp [hz]
  · intro hp
    simp only [handleClose, hfind]
    rw [if_neg hp]

/-- Mid-game world for the C9 counterexample: drawing phase, two connected
players both still waiting. -/
def activeRoom : Room where
  hostId := 1
  players := [{ id := 1, name := "ann", score := 0,
                status := PlayerStatus.waiting, isHost := true },
              { id := 2, name := "bob", score := 0,
                status := PlayerStatus.waiting, isHost := false }]
  maxPlayers := 12
  currentPhase := Phase.drawing
  currentRound := 2
  totalRounds := 6
  drawingTime := 180
  guessingTime := 60

def activeWorld : World where
  room := activeRoom
  chains := []
  timer := some 180

/-- Counterexample to C9 as stated: when the connection of player 1 closes
during the drawing phase, the player is retained but their status stays
waiting — the close handler never marks anyone disconnected (its non-lobby
branch is a no-op on the roster). -/
theorem close_keeps_status_counterexample :
    (handleClose activeWorld [(7, 1)] 7).1.room.players.map (fun p => p.status)
      = [PlayerStatus.waiting, PlayerStatus.waiting] ∧
    PlayerStatus.waiting ≠ PlayerStatus.disconnected := by
  refine ⟨?_, ?_⟩ <;> decide

/-- Lobby world with a single player for the C9 witness. -/
def soloLobbyWorld : World where
  room := { hostId := 1,
            players := [{ id := 1, name := "ann", score := 0,
                          status := PlayerStatus.waiting, isHost := true }],
            maxPlayers := 12, currentPhase := Phase.lobby, currentRound := 0,
            totalRounds := 6, drawingTime := 180, guessingTime := 60 }
  chains := []
  timer := some 30

/-- Witness for the amended C9: closing the sole lobby player's connection
removes them and stops the timer. -/
theorem close_handler_spec_witness :
    ([((7 : Nat), (1 : Nat))].find? (fun c => c.1 == 7) = some (7, 1)) ∧
    soloLobbyWorld.room.currentPhase = Phase.lobby ∧
    (handleClose soloLobbyWorld [(7, 1)] 7).1.room.players
      = soloLobbyWorld.room.players.filter (fun p => p.id != 1) ∧
    (handleClose soloLobbyWorld [(7, 1)] 7).1.timer = none :=
  ⟨by decide, rfl,
   ((close_handler_spec soloLobbyWorld [(7, 1)] 7 1 (by decide)).2.1 rfl).1,
   ((close_handler_spec soloLobbyWorld [(7, 1)] 7 1 (by decide)).2.1 rfl).2.1
     (by decide)⟩

/-- Four-player lobby world for the C5 witness; player 1 is host. -/
def fourLobbyWorld : World where
  room := { hostId := 1,
            players := [{ id := 1, name := "ann", score := 0,
                          status := PlayerStatus.waiting, isHost := true },
                        { id := 2, name := "bob", score := 0,
                          status := PlayerStatus.waiting, isHost := false },
                        { id := 3, name := "cam", score := 0,
                          status := PlayerStatus.waiting, isHost := false },
                        { id := 4, name := "dee", score := 0,
                          status := PlayerStatus.waiting, isHost := false }],
            maxPlayers := 12, currentPhase := Phase.lobby, currentRound := 0,
            totalRounds := 6, drawingTime := 180, guessingTime := 60 }
  chains := []
  timer := none

/-- Three-player lobby world for the C5 witness. -/
def threeLobbyWorld : World where
  room := { hostId := 1,
            players := [{ id := 1, name := "ann", score := 0,
                          status := PlayerStatus.waiting, isHost := true },
                        { id := 2, name := "bob", score := 0,
                          status := PlayerStatus.waiting, isHost := false },
                        { id := 3, name := "cam", score := 0,
                          status := PlayerStatus.waiting, isHost := false }],
            maxPlayers := 12, currentPhase := Phase.lobby, currentRound := 0,
            totalRounds := 6, drawingTime := 180, guessingTime := 60 }
  chains := []
  timer := none

/-- Witness for C5: the host starting with exactly 4 players succeeds
(writing phase, round 1), and with exactly 3 players fails with no state
change. -/
theorem start_game_guards_witness :
    (startGame fourLobbyWorld 1).2 = none ∧
    (startGame fourLobbyWorld 1).1.room.currentPhase = Phase.writing ∧
    (startGame fourLobbyWorld 1).1.room.currentRound = 1 ∧
    threeLobbyWorld.room.players.length < 4 ∧
    (startGame threeLobbyWorld 1).2 ≠ none ∧
    (startGame threeLobbyWorld 1).1 = threeLobbyWorld :=
  ⟨((start_game_guards fourLobbyWorld 1).1
      ⟨{ id := 1, name := "ann", score := 0,
         status := PlayerStatus.waiting, isHost := true }, by decide, rfl⟩
      (by decide)).1,
   ((start_game_guards fourLobbyWorld 1).1
      ⟨{ id := 1, name := "ann", score := 0,
         status := PlayerStatus.waiting, isHost := true }, by decide, rfl⟩
      (by decide)).2.1,
   ((start_game_guards fourLobbyWorld 1).1
      ⟨{ id := 1, name := "ann", score := 0,
         status := PlayerStatus.waiting, isHost := true }, by decide, rfl⟩
      (by decide)).2.2.1,
   by decide,
   ((start_game_guards threeLobbyWorld 1).2.2 (by decide)).1,
   ((start_game_guards threeLobbyWorld 1).2.2 (by decide)).2⟩

/-- Mid-game world for the C10 witness: drawing phase of round 5 with the
game's 4 chains already created. -/
def midGameWorld : World where
  room := { hostId := 1,
            players := [{ id := 1, name := "ann", score := 0,
                          status := PlayerStatus.waiting, isHost := true },
                        { id := 2, name := "bob", score := 0,
                          status := PlayerStatus.waiting, isHost := false },
                        { id := 3, name := "cam", score := 0,
                          status := PlayerStatus.waiting, isHost := false },
                        { id := 4, name := "dee", score := 0,
                          status := PlayerStatus.waiting, isHost := false }],
            maxPlayers := 12, currentPhase := Phase.drawing, currentRound := 5,
            totalRounds := 6, drawingTime := 180, guessingTime := 60 }
  chains := [{ chainIndex := 0, steps := [] }, { chainIndex := 1, steps := [] },
             { chainIndex := 2, steps := [] }, { chainIndex := 3, steps := [] }]
  timer := some 180

/-- Witness for C10: a repeated start_game during the drawing phase of
round 5 succeeds, resets the room to writing round 1 and leaves 8 chains
(4 duplicates alongside the 4 existing ones). -/
theorem start_game_ignores_phase_witness :
    midGameWorld.room.currentPhase = Phase.drawing ∧
    (startGame midGameWorld 1).2 = none ∧
    (startGame midGameWorld 1).1.room.currentPhase = Phase.writing ∧
    (startGame midGameWorld 1).1.room.currentRound = 1 ∧
    (startGame midGameWorld 1).1.chains.length
      = midGameWorld.chains.length + midGameWorld.room.players.length :=
  ⟨rfl,
   (start_game_ignores_phase midGameWorld 1
      { id := 1, name := "ann", score := 0,
        status := PlayerStatus.waiting, isHost := true }
      (by decide) rfl (by decide)).1,
   (start_game_ignores_phase midGameWorld 1
      { id := 1, name := "ann", score := 0,
        status := PlayerStatus.waiting, isHost := true }
      (by decide) rfl (by decide)).2.1,
   (start_game_ignores_phase midGameWorld 1
      { id := 1, name := "ann", score := 0,
        status := PlayerStatus.waiting, isHost := true }
      (by decide) rfl (by decide)).2.2.1,
   (start_game_ignores_phase midGameWorld 1
      { id := 1, name := "ann", score := 0,
        status := PlayerStatus.waiting, isHost := true }
      (by decide) rfl (by decide)).2.2.2⟩

end DrawGame
